import Mathlib

/-!
Shallow embedding of the op_fonts build pipeline
(src/op_fonts/config.py, download.py, naming.py, pipeline.py,
unicode_blocks.py).

Strings are Lean strings, the file system is a list of present path names,
network and external font-engine behaviour are oracles bundled in `Env`, and
every side effect is recorded in an explicit `Eff` trace.  Components of the
repository that are not among the provided sources (subset.py, charsets.py,
merge.py) are modelled from the spec and marked as such.
-/

namespace OpFonts

/-- Characters of `p` are an initial segment of `s` (Python `str.startswith`). -/
def startsWithChars : List Char → List Char → Bool
  | [], _ => true
  | _ :: _, [] => false
  | p :: ps, c :: cs => p == c && startsWithChars ps cs

/-- Python `s.startswith(p)` on Lean strings. -/
def strStartsWith (s p : String) : Bool := startsWithChars p.data s.data

/-- Insert into an ascending list, keeping it duplicate free. -/
def insertSorted (n : Nat) : List Nat → List Nat
  | [] => [n]
  | m :: rest =>
    if n < m then n :: m :: rest
    else if n = m then m :: rest
    else m :: insertSorted n rest

/-- Ascending duplicate-free enumeration of a list (Python `sorted(set(l))`). -/
def sortedDedup (l : List Nat) : List Nat := l.foldr insertSorted []

/-- Unicode range expression.  Modelled from the spec: subset.py is not among
the provided sources; per §4.3 each expression denotes either a single code
point or an inclusive range. -/
inductive URange where
  | single (n : Nat)
  | interval (lo hi : Nat)
deriving DecidableEq

/-- Code points denoted by one range expression. -/
def expandRange : URange → List Nat
  | .single n => [n]
  | .interval lo hi => List.range' lo (hi + 1 - lo)

/-- Modelled from the spec: subset.py's parse_unicode_ranges.  Union of the
expressions' code points, overlapping ranges collapsing via set union,
returned sorted (spec §4.3). -/
def parse_unicode_ranges (rs : List URange) : List Nat :=
  sortedDedup ((rs.map expandRange).flatten)

/-! Data model from src/op_fonts/config.py. -/

structure SourceCDN where
  base_url : String
  variant : String
deriving DecidableEq

structure SourceCJK where
  base_url : String
deriving DecidableEq

structure Sources where
  cdn : SourceCDN
  cjk : SourceCJK
deriving DecidableEq

structure ScriptEntry where
  name : String
  enabled : Bool
  noto_font : String
  noto_path : String
  unicode_ranges : List URange
  is_cjk : Bool := false
  charset_file : Option String := none
  variant : Option String := none
deriving DecidableEq

structure SymbolEntry where
  name : String
  path : String
  url : String := ""
deriving DecidableEq

structure SymbolsConfig where
  enabled : Bool
  fonts : List SymbolEntry
  unicode_ranges : List URange
deriving DecidableEq

structure EmojiConfig where
  enabled : Bool
  font : String
  url : String := ""
  path : String := ""
  unicode_ranges : List URange := []
deriving DecidableEq

structure MergeConfig where
  drop_tables : List String
  keep_features : List String := []
deriving DecidableEq

structure BuildConfig where
  name : String
  style : String
  output : String
  mode : String
  cache_dir : String
  output_dir : String
  sources : Sources
  scripts : List ScriptEntry
  symbols : SymbolsConfig
  emoji : EmojiConfig
  merge : MergeConfig
  weights : List String := []
  weight_values : List (String × Nat) := []
  languages_url : String := ""
deriving DecidableEq

/-- Contents of a parsed languages.json manifest: openpilot's mapping of
display names to language codes, a plain list of codes, or any other shape
(which `_apply_languages_json` rejects). -/
inductive LangJson where
  | dict (entries : List (String × String))
  | arr (codes : List String)
  | other
deriving DecidableEq

/-- Outcome of the external subsetter on one source font, together with the
character map of the produced subset. -/
inductive SubsetRes where
  | ok (cmap : Finset Nat)
  | valueErr
  | err
deriving DecidableEq

/-- Oracles for everything outside the program: the network, charset files,
the glyph coverage of downloaded fonts, unexpected external-engine failures,
and the parsed content of manifest files. -/
structure Env where
  net : String → Nat → Bool
  charsetFiles : String → List Nat
  fontCmap : String → Finset Nat
  crash : String → List Nat → Bool
  manifest : String → LangJson

/-- Recorded side effects of a run. -/
inductive Eff where
  | httpGet (url : String) (attempt : Nat)
  | sleep (seconds : Nat)
  | writeFile (path : String)
  | mkdtemp (dir : String)
  | rmtree (dir : String)
  | mkdirOutput (dir : String)
  | skipEmptyScript (name : String)
  | skipValueError (name : String)
  | subsetRun (name src out : String) (codepoints : List Nat)
  | subsetError (name : String)
  | subsetSymbolRun (src out : String)
  | skipSymbolValueError (src : String)
  | symbolError (src : String)
  | mergeRun (inputs : List String) (out : String)
  | pruneRun (out : String)
  | renameRun (out family style : String)
  | fixMetricsRun (out : String)
  | subroutinizeRun (out : String)
deriving DecidableEq

/-- Errors a run can abort with (Python exceptions reaching the caller). -/
inductive Err where
  | downloadFailed (url : String)
  | loopExhausted
  | badManifest
  | noScriptsEnabled
  | allSubsetsEmpty
  | externalFailure
  | typeError
deriving DecidableEq

/-- File system state: the set of paths that currently exist. -/
abbrev World := List String

/-- Result of one stateful step: new file system, emitted effects, value. -/
abbrev Res (α : Type) := World × List Eff × Except Err α

/-! Functions from src/op_fonts/unicode_blocks.py. -/

/-- The static language-code to script-names table. -/
def LANG_TO_SCRIPTS : List (String × List String) :=
  [("en", ["latin"]), ("es", ["latin"]), ("fr", ["latin"]), ("pt", ["latin"]),
   ("pt-BR", ["latin"]), ("de", ["latin"]), ("tr", ["latin"]),
   ("uk", ["latin", "cyrillic"]), ("ru", ["latin", "cyrillic"]),
   ("th", ["latin", "thai"]), ("ko", ["latin", "cjk", "hangul"]),
   ("ja", ["latin", "cjk"]), ("zh-CHS", ["latin", "cjk"]),
   ("zh-CHT", ["latin", "cjk"])]

/-- Script names needed to cover the given language codes; unknown codes are
ignored with a warning.  The source returns a set; a list models it up to
membership, which is all `enable_scripts_for` consults. -/
def scripts_for_languages (lang_codes : List String) : List String :=
  (lang_codes.map (fun code => (LANG_TO_SCRIPTS.lookup code).getD [])).flatten

/-! Functions from src/op_fonts/config.py. -/

/-- Set each script's enabled flag from the needed-script names, by exact or
prefix-with-separator match.  The source mutates `config.scripts` in place;
the embedding returns the updated list. -/
def enable_scripts_for (scripts : List ScriptEntry) (script_names : List String) :
    List ScriptEntry :=
  scripts.map fun script =>
    { script with
      enabled := script_names.any fun needed =>
        script.name == needed || strStartsWith script.name (needed ++ "-") }

/-! Functions from src/op_fonts/download.py. -/

def MAX_RETRIES : Nat := 3

/-- Base retry delay in seconds (source `_RETRY_DELAY = 2.0`). -/
def RETRY_DELAY : Nat := 2

/-- Hex digit character, uppercase, as urllib's percent-encoder emits. -/
def hexDigit (n : Nat) : Char :=
  if n < 10 then Char.ofNat (48 + n) else Char.ofNat (55 + n)

/-- Percent-encode one character unless it is unreserved.  Character-level
model of urllib.parse.quote with safe set empty; font names are ASCII, where
this coincides with the stdlib's byte-level encoder. -/
def quoteChar (c : Char) : String :=
  if c.isAlphanum || c == '_' || c == '.' || c == '-' || c == '~' then
    String.mk [c]
  else
    String.mk ['%', hexDigit (c.toNat / 16), hexDigit (c.toNat % 16)]

/-- urllib.parse.quote(s, safe=""). -/
def quote (s : String) : String := String.join (s.data.map quoteChar)

/-- Attempt loop of `_download` (download.py lines 25-37); `attempts` is the
list of remaining attempt numbers, initially [1, 2, 3].  A successful GET
writes the destination file; failure on the last attempt raises; any earlier
failure sleeps `RETRY_DELAY * attempt` and retries. -/
def downloadAttempts (net : String → Nat → Bool) (url dest : String) (w : World) :
    List Nat → Res Unit
  | [] => (w, [], .error .loopExhausted)
  | attempt :: rest =>
    if net url attempt then
      (dest :: w, [.httpGet url attempt, .writeFile dest], .ok ())
    else if attempt == MAX_RETRIES then
      (w, [.httpGet url attempt], .error (.downloadFailed url))
    else
      let r := downloadAttempts net url dest w rest
      (r.1, .httpGet url attempt :: .sleep (RETRY_DELAY * attempt) :: r.2.1, r.2.2)

/-- Download url to dest with retries (download.py `_download`). -/
def download (net : String → Nat → Bool) (url dest : String) (w : World) : Res Unit :=
  downloadAttempts net url dest w (List.range' 1 MAX_RETRIES)

/-- Build the download URL for a script's font (download.py `_font_url`). -/
def font_url (config : BuildConfig) (script : ScriptEntry) : String :=
  let font_name := quote script.noto_font
  if script.is_cjk then
    config.sources.cjk.base_url ++ "/" ++ script.noto_path ++ "/" ++ font_name
  else
    let variant := script.variant.getD config.sources.cdn.variant
    config.sources.cdn.base_url ++ "/" ++ script.noto_path ++ "/" ++ variant ++ "/" ++ font_name

/-- download.py `_symbol_url`. -/
def symbol_url (config : BuildConfig) (font_name font_path : String) : String :=
  config.sources.cdn.base_url ++ "/" ++ font_path ++ "/" ++ config.sources.cdn.variant ++ "/" ++ font_name

/-- download.py `_cache_path`. -/
def cache_path (cache_dir font_name : String) : String := cache_dir ++ "/" ++ font_name

/-- Local path of the font for a script, downloading on cache miss
(download.py `ensure_font`). -/
def ensure_font (env : Env) (config : BuildConfig) (script : ScriptEntry) (w : World) :
    Res String :=
  let cached := cache_path config.cache_dir script.noto_font
  if w.contains cached then (w, [], .ok cached)
  else
    let url := font_url config script
    let r := download env.net url cached w
    (r.1, r.2.1, r.2.2.map fun _ => cached)

/-- Local path of a symbol font, downloading on cache miss
(download.py `ensure_symbol_font`; note it takes three arguments). -/
def ensure_symbol_font (env : Env) (config : BuildConfig) (font_name font_path : String)
    (w : World) : Res String :=
  let cached := cache_path config.cache_dir font_name
  if w.contains cached then (w, [], .ok cached)
  else
    let url := symbol_url config font_name font_path
    let r := download env.net url cached w
    (r.1, r.2.1, r.2.2.map fun _ => cached)

/-- Download a font from an explicit URL, caching locally
(download.py `ensure_url_font`). -/
def ensure_url_font (env : Env) (config : BuildConfig) (font_name url : String)
    (w : World) : Res String :=
  let cached := cache_path config.cache_dir font_name
  if w.contains cached then (w, [], .ok cached)
  else
    let r := download env.net url cached w
    (r.1, r.2.1, r.2.2.map fun _ => cached)

/-- download.py `_emoji_url`. -/
def emoji_url (config : BuildConfig) : String :=
  if config.emoji.url ≠ "" then config.emoji.url
  else symbol_url config config.emoji.font config.emoji.path

/-- (name, url, cache_path) for all fonts that would be downloaded
(download.py `get_download_plan`). -/
def get_download_plan (config : BuildConfig) : List (String × String × String) :=
  (config.scripts.filterMap fun script =>
    if script.enabled then
      some (script.noto_font, font_url config script, cache_path config.cache_dir script.noto_font)
    else none)
  ++ (if config.symbols.enabled then
        config.symbols.fonts.map fun sf =>
          (sf.name, symbol_url config sf.name sf.path, cache_path config.cache_dir sf.name)
      else [])
  ++ (if config.emoji.enabled && config.emoji.font ≠ "" then
        [(config.emoji.font, emoji_url config, cache_path config.cache_dir config.emoji.font)]
      else [])

/-! Functions from src/op_fonts/naming.py. -/

/-- PostScript name derived in `rename_font`: the family-style full name with
every space removed (Python `full_name.replace(" ", "")`). -/
def ps_name (family_name style_name : String) : String :=
  String.mk ((family_name ++ "-" ++ style_name).data.filter (fun c => c ≠ ' '))

/-- Unique identifier derived in `rename_font`. -/
def unique_id (version family_name style_name : String) : String :=
  version ++ ";" ++ ps_name family_name style_name

/-- The name-table entries `rename_font` writes, keyed by name id. -/
def rename_entries (family_name style_name version : String) : List (Nat × String) :=
  [(0, "Built by op_fonts"),
   (1, family_name),
   (2, style_name),
   (3, unique_id version family_name style_name),
   (4, family_name ++ " " ++ style_name),
   (5, "Version " ++ version),
   (6, ps_name family_name style_name)]

/-! Functions from src/op_fonts/pipeline.py. -/

/-- Path is absolute (starts with a separator). -/
def isAbsolutePath (p : String) : Bool :=
  match p.data with
  | '/' :: _ => true
  | _ => false

/-- Parent directory of a path (pathlib `Path.parent` on the paths used here). -/
def parentDir (p : String) : String :=
  if p.data.contains '/' then
    String.mk (((p.data.reverse.dropWhile (fun c => c ≠ '/')).drop 1).reverse)
  else "."

/-- Full codepoint list for a script entry (pipeline.py `_resolve_codepoints`).
A charset file's codepoints are unioned with the script's unicode_ranges and
returned sorted; without a charset file the parsed ranges are returned.
Charset loading (charsets.py, not among the sources) is modelled from the
spec as reading a flat codepoint list, via the `charsetFiles` oracle. -/
def _resolve_codepoints (env : Env) (script : ScriptEntry) (config : BuildConfig) :
    List Nat :=
  match script.charset_file with
  | some f =>
    let charset_path := if isAbsolutePath f then f else parentDir config.cache_dir ++ "/" ++ f
    let charset_cps := env.charsetFiles charset_path
    if script.unicode_ranges ≠ [] then
      sortedDedup (charset_cps ++ parse_unicode_ranges script.unicode_ranges)
    else
      sortedDedup charset_cps
  | none => parse_unicode_ranges script.unicode_ranges

/-- Download languages.json from URL, caching locally
(pipeline.py `_fetch_languages_json`). -/
def _fetch_languages_json (env : Env) (url : String) (cache_dir : String) (w : World) :
    Res String :=
  let cached := cache_dir ++ "/languages.json"
  if w.contains cached then (w, [], .ok cached)
  else
    let r := download env.net url cached w
    (r.1, r.2.1, r.2.2.map fun _ => cached)

/-- Read a languages.json file and enable only the needed scripts
(pipeline.py `_apply_languages_json`); an unrecognized shape raises. -/
def _apply_languages_json (env : Env) (config : BuildConfig) (languages_json : String) :
    Except Err BuildConfig :=
  match env.manifest languages_json with
  | .dict entries =>
    .ok { config with
          scripts := enable_scripts_for config.scripts
            (scripts_for_languages (entries.map (·.2))) }
  | .arr codes =>
    .ok { config with
          scripts := enable_scripts_for config.scripts (scripts_for_languages codes) }
  | .other => .error .badManifest

/-- Resolve languages.json: use the given path, or auto-fetch from the
config URL (pipeline.py `_resolve_languages_json`). -/
def _resolve_languages_json (env : Env) (config : BuildConfig)
    (languages_json : Option String) (w : World) : Res (Option String) :=
  match languages_json with
  | some p => (w, [], .ok (some p))
  | none =>
    if config.languages_url ≠ "" then
      let r := _fetch_languages_json env config.languages_url config.cache_dir w
      (r.1, r.2.1, r.2.2.map some)
    else (w, [], .ok none)

/-- The configuration `build` works with after its optional language step:
`_apply_languages_json` when a manifest path was passed, otherwise the
configuration unchanged (pipeline.py `build` lines 127-128). -/
def buildAppliedConfig (env : Env) (config : BuildConfig)
    (languages_json : Option String) : Except Err BuildConfig :=
  match languages_json with
  | some p => _apply_languages_json env config p
  | none => .ok config

/-- First half of `dry_run`: resolve and apply the language manifest
(pipeline.py `dry_run` lines 84-86), with its side effects. -/
def dryRunApplied (env : Env) (config : BuildConfig) (languages_json : Option String)
    (w : World) : Res BuildConfig :=
  let r := _resolve_languages_json env config languages_json w
  match r.2.2 with
  | .error e => (r.1, r.2.1, .error e)
  | .ok resolved =>
    match resolved with
    | some p => (r.1, r.2.1, _apply_languages_json env config p)
    | none => (r.1, r.2.1, .ok config)

/-- What `dry_run` computes and prints. -/
structure DryReport where
  enabledNames : List String
  counts : List (String × Nat)
  plan : List (String × String × String × Bool)
  mergeOrder : List (String × String)
  finalName : String × String
deriving DecidableEq

/-- Print the build plan without executing anything (pipeline.py `dry_run`);
the printed data is collected in a `DryReport`. -/
def dry_run (env : Env) (config : BuildConfig) (languages_json : Option String)
    (w : World) : Res DryReport :=
  let r := dryRunApplied env config languages_json w
  let w1 := r.1
  let t1 := r.2.1
  match r.2.2 with
  | .error e => (w1, t1, .error e)
  | .ok cfg =>
    let enabled := cfg.scripts.filter (·.enabled)
    (w1, t1, .ok
      { enabledNames := enabled.map (·.name)
        counts := enabled.map fun s => (s.name, (_resolve_codepoints env s cfg).length)
        plan := (get_download_plan cfg).map fun e => (e.1, e.2.1, e.2.2, w1.contains e.2.2)
        mergeOrder := enabled.map (fun s => (s.noto_font, s.name))
          ++ (if cfg.symbols.enabled then
                cfg.symbols.fonts.map (fun sf => (sf.name, "symbols"))
              else [])
        finalName := (cfg.name, cfg.style) })

/-- Fetch stage of `build` over the enabled scripts (pipeline.py lines
138-140): resolve a local path per script, building the font_paths dict. -/
def fetchScripts (env : Env) (config : BuildConfig) :
    List ScriptEntry → World → Res (List (String × String))
  | [], w => (w, [], .ok [])
  | script :: rest, w =>
    let r1 := ensure_font env config script w
    match r1.2.2 with
    | .error e => (r1.1, r1.2.1, .error e)
    | .ok p =>
      let r2 := fetchScripts env config rest r1.1
      (r2.1, r1.2.1 ++ r2.2.1, r2.2.2.map fun ps => (script.name, p) :: ps)

/-- Python dict read `font_paths[script.name]` (last write wins). -/
def dictGet (d : List (String × String)) (k : String) : String :=
  match (d.filter (fun kv => kv.1 == k)).getLast? with
  | some kv => kv.2
  | none => ""

/-- Outcome of `subset_font` on `src` with the given codepoints, plus the
character-map read of the produced subset (pipeline.py lines 163-167).
Modelled from the spec: subset.py is not among the sources; per §6 the
subsetter restricts to the intersection of the requested code points and the
glyphs actually present and fails with a recoverable error (ValueError) when
that would be empty.  The `crash` oracle stands for any other exception
raised by the external engine or the character-map read. -/
def subset_call (env : Env) (src : String) (codepoints : List Nat) : SubsetRes :=
  if env.crash src codepoints then .err
  else
    let actual := codepoints.toFinset ∩ env.fontCmap src
    if actual = ∅ then .valueErr else .ok actual

/-- Subset stage of `build` over the enabled scripts (pipeline.py lines
153-171): filter by the running covered set, skip empty requests, subset,
track the actual character map, convert ValueError to a skip. -/
def subsetScripts (env : Env) (config : BuildConfig) (fonts : List (String × String))
    (work_dir : String) :
    List ScriptEntry → Finset Nat → List String → World → Res (List String × Finset Nat)
  | [], covered, acc, w => (w, [], .ok (acc, covered))
  | script :: rest, covered, acc, w =>
    let src := dictGet fonts script.name
    let out := work_dir ++ "/subset_" ++ script.name ++ ".otf"
    let codepoints0 := _resolve_codepoints env script config
    let codepoints :=
      if covered = ∅ then codepoints0
      else codepoints0.filter (fun cp => cp ∉ covered)
    if codepoints = [] then
      let r := subsetScripts env config fonts work_dir rest covered acc w
      (r.1, .skipEmptyScript script.name :: r.2.1, r.2.2)
    else
      match subset_call env src codepoints with
      | .ok cmap =>
        let r := subsetScripts env config fonts work_dir rest (covered ∪ cmap)
          (acc ++ [out]) (out :: w)
        (r.1, .subsetRun script.name src out codepoints :: r.2.1, r.2.2)
      | .valueErr =>
        let r := subsetScripts env config fonts work_dir rest covered acc w
        (r.1, .skipValueError script.name :: r.2.1, r.2.2)
      | .err => (w, [.subsetError script.name], .error .externalFailure)

/-- File stem (pathlib `Path.stem`): last component without its extension. -/
def pathStem (p : String) : String :=
  let base := (p.data.reverse.takeWhile (fun c => c ≠ '/')).reverse
  if base.contains '.' then
    String.mk ((base.reverse.dropWhile (fun c => c ≠ '.')).drop 1).reverse
  else String.mk base

/-- Symbol subsetting loop body (pipeline.py lines 176-182). -/
def subsetSymbolPaths (env : Env) (sym_cps : List Nat) (work_dir : String) :
    List String → List String → World → Res (List String)
  | [], acc, w => (w, [], .ok acc)
  | sp :: rest, acc, w =>
    let out := work_dir ++ "/subset_symbols_" ++ pathStem sp ++ ".otf"
    match subset_call env sp sym_cps with
    | .ok _ =>
      let r := subsetSymbolPaths env sym_cps work_dir rest (acc ++ [out]) (out :: w)
      (r.1, .subsetSymbolRun sp out :: r.2.1, r.2.2)
    | .valueErr =>
      let r := subsetSymbolPaths env sym_cps work_dir rest acc w
      (r.1, .skipSymbolValueError sp :: r.2.1, r.2.2)
    | .err => (w, [.symbolError sp], .error .externalFailure)

/-- Symbol subsetting stage (pipeline.py lines 174-182). -/
def subsetSymbols (env : Env) (config : BuildConfig) (work_dir : String)
    (symbol_paths : List String) (acc : List String) (w : World) : Res (List String) :=
  if config.symbols.enabled ∧ config.symbols.unicode_ranges ≠ [] then
    subsetSymbolPaths env (sortedDedup (parse_unicode_ranges config.symbols.unicode_ranges))
      work_dir symbol_paths acc w
  else (w, [], .ok acc)

/-- The temporary working directory `tempfile.mkdtemp(prefix="op_fonts_")`
hands one build. -/
def WORK_DIR : String := "/tmp/op_fonts_work"

/-- Execute the full build pipeline (pipeline.py `build`).  Returns the
output font path.  The symbols fetch loop calls `ensure_symbol_font` with
four arguments while its definition takes three, so a non-empty symbol font
list raises TypeError; the emoji font is never fetched. -/
def build (env : Env) (config0 : BuildConfig) (languages_json : Option String)
    (w0 : World) : Res String :=
  match buildAppliedConfig env config0 languages_json with
  | .error e => (w0, [], .error e)
  | .ok config =>
    let enabled := config.scripts.filter (·.enabled)
    if enabled = [] then (w0, [], .error .noScriptsEnabled)
    else
      let f := fetchScripts env config enabled w0
      match f.2.2 with
      | .error e => (f.1, f.2.1, .error e)
      | .ok font_paths =>
        match (if config.symbols.enabled then
                 match config.symbols.fonts with
                 | [] => Except.ok ([] : List String)
                 | _ :: _ => Except.error Err.typeError
               else Except.ok ([] : List String)) with
        | .error e => (f.1, f.2.1, .error e)
        | .ok symbol_paths =>
          let work_dir := WORK_DIR
          let s := subsetScripts env config font_paths work_dir enabled ∅ [] f.1
          match s.2.2 with
          | .error e => (s.1, f.2.1 ++ .mkdtemp work_dir :: s.2.1, .error e)
          | .ok sc =>
            let y := subsetSymbols env config work_dir symbol_paths sc.1 s.1
            match y.2.2 with
            | .error e => (y.1, f.2.1 ++ .mkdtemp work_dir :: (s.2.1 ++ y.2.1), .error e)
            | .ok subset_paths =>
              if subset_paths = [] then
                (y.1, f.2.1 ++ .mkdtemp work_dir :: (s.2.1 ++ y.2.1), .error .allSubsetsEmpty)
              else
                let output_path := config.output_dir ++ "/" ++ config.output
                (output_path :: y.1,
                 f.2.1 ++ .mkdtemp work_dir :: (s.2.1 ++ y.2.1)
                    ++ [.mkdirOutput config.output_dir,
                        .mergeRun subset_paths output_path]
                    ++ (if config.merge.keep_features ≠ [] then [.pruneRun output_path] else [])
                    ++ [.renameRun output_path config.name config.style,
                        .fixMetricsRun output_path,
                        .subroutinizeRun output_path,
                        .rmtree work_dir],
                 .ok output_path)

/-- copy.deepcopy builds a structurally equal, fully disjoint value; under
value semantics it is the identity. -/
def deepcopy (config : BuildConfig) : BuildConfig := config

/-- Replace every (left-to-right, non-overlapping) occurrence of `pat` in a
character list by `rep` (Python `str.replace`); `fuel` bounds the scan. -/
def replaceChars (pat rep : List Char) : Nat → List Char → List Char
  | _, [] => []
  | 0, s => s
  | fuel + 1, c :: rest =>
    if pat ≠ [] ∧ startsWithChars pat (c :: rest) then
      rep ++ replaceChars pat rep fuel (List.drop (pat.length - 1) rest)
    else
      c :: replaceChars pat rep fuel rest

/-- Python `s.replace(pat, rep)`. -/
def strReplace (s pat rep : String) : String :=
  String.mk (replaceChars pat.data rep.data s.data.length s.data)

/-- The per-weight configuration `build_all` derives (pipeline.py lines
380-385): deep copy, set style and output, substitute the weight for
"Regular" in each script's static font name. -/
def perWeightConfig (config : BuildConfig) (weight : String) : BuildConfig :=
  let cfg := deepcopy config
  let cfg := { cfg with
               style := weight,
               output := config.name ++ "-" ++ weight ++ ".otf" }
  { cfg with
    scripts := cfg.scripts.map fun script =>
      { script with noto_font := strReplace script.noto_font "Regular" weight } }

/-- The per-weight loop of `build_all` (pipeline.py lines 378-386), carrying
the applied base configuration unchanged across iterations. -/
def buildWeights (env : Env) (config : BuildConfig) :
    List String → World → Res (List String)
  | [], w => (w, [], .ok [])
  | weight :: rest, w =>
    let cfg := perWeightConfig config weight
    let r1 := build env cfg none w
    match r1.2.2 with
    | .error e => (r1.1, r1.2.1, .error e)
    | .ok out =>
      let r2 := buildWeights env config rest r1.1
      (r2.1, r1.2.1 ++ r2.2.1, r2.2.2.map fun outs => out :: outs)

/-- Build all weight variants defined in the config (pipeline.py `build_all`). -/
def build_all (env : Env) (config : BuildConfig) (languages_json : Option String)
    (w : World) : Res (List String) :=
  let r := _resolve_languages_json env config languages_json w
  match r.2.2 with
  | .error e => (r.1, r.2.1, .error e)
  | .ok resolved =>
    if config.weights = [] then
      let b := build env config resolved r.1
      (b.1, r.2.1 ++ b.2.1, b.2.2.map fun p => [p])
    else
      match (match resolved with
             | some p => _apply_languages_json env config p
             | none => Except.ok config) with
      | .error e => (r.1, r.2.1, .error e)
      | .ok base =>
        let b := buildWeights env base base.weights r.1
        (b.1, r.2.1 ++ b.2.1, b.2.2)

/-! Projections of the effect trace used by the theorems. -/

/-- Attempt number of an HTTP GET effect. -/
def effAttempt : Eff → Option Nat
  | .httpGet _ a => some a
  | _ => none

/-- Duration of a sleep effect. -/
def effSleep : Eff → Option Nat
  | .sleep s => some s
  | _ => none

/-- Per-script decision taken by the subsetting loop, as recorded in the
trace. -/
inductive Decision where
  | skippedEmpty (name : String)
  | subsetted (name : String) (requested : List Nat)
  | skippedError (name : String)
  | aborted (name : String)
deriving DecidableEq

/-- Read the subsetting loop's decisions back out of the effect trace. -/
def decisionOfEff : Eff → Option Decision
  | .skipEmptyScript n => some (.skippedEmpty n)
  | .skipValueError n => some (.skippedError n)
  | .subsetRun n _ _ cps => some (.subsetted n cps)
  | .subsetError n => some (.aborted n)
  | _ => none

/-- Name of a script that actually contributed a subset file (and hence an
entry in the merge order). -/
def mergedScriptName : Eff → Option Decision := decisionOfEff

/-- Scripts whose subset files enter the merge, read off the trace. -/
def subsettedName : Eff → Option String
  | .subsetRun n _ _ _ => some n
  | _ => none

/-- Effects the download layer can produce. -/
def isNetEff : Eff → Prop
  | .httpGet _ _ => True
  | .sleep _ => True
  | .writeFile _ => True
  | _ => False

/-- Effects the per-script subsetting loop can produce. -/
def isScriptSubsetEff : Eff → Prop
  | .skipEmptyScript _ => True
  | .skipValueError _ => True
  | .subsetRun _ _ _ _ => True
  | .subsetError _ => True
  | _ => False

/-- Effects the symbol subsetting loop can produce. -/
def isSymbolSubsetEff : Eff → Prop
  | .subsetSymbolRun _ _ => True
  | .skipSymbolValueError _ => True
  | .symbolError _ => True
  | _ => False

/-- The subsetting policy exactly as claim C2 words it: scripts in declared
order, each request set filtered to exclude already-covered code points, an
empty filtered set skipped rather than an error, the covered set updated
from each produced subset's actual character map (an unexpected external
failure aborts). -/
def specSubsetDecisions (env : Env) (config : BuildConfig)
    (fonts : List (String × String)) :
    List ScriptEntry → Finset Nat → List Decision
  | [], _ => []
  | script :: rest, covered =>
    let requested := (_resolve_codepoints env script config).filter (fun cp => cp ∉ covered)
    if requested = [] then
      .skippedEmpty script.name :: specSubsetDecisions env config fonts rest covered
    else
      match subset_call env (dictGet fonts script.name) requested with
      | .ok cmap =>
        .subsetted script.name requested
          :: specSubsetDecisions env config fonts rest (covered ∪ cmap)
      | .valueErr => .skippedError script.name :: specSubsetDecisions env config fonts rest covered
      | .err => [.aborted script.name]

/-- The script a decision is about. -/
def decisionName : Decision → String
  | .skippedEmpty n => n
  | .subsetted n _ => n
  | .skippedError n => n
  | .aborted n => n

/-- The enabled-script names a dry run reports (empty on an error). -/
def dryEnabledNames (r : Res DryReport) : List String :=
  match r.2.2 with
  | .ok report => report.enabledNames
  | .error _ => []

/-- Run `build` over an explicit list of configurations, in order, stopping
at the first failure. -/
def buildSeq (env : Env) : List BuildConfig → World → Res (List String)
  | [], w => (w, [], .ok [])
  | cfg :: rest, w =>
    let r1 := build env cfg none w
    match r1.2.2 with
    | .error e => (r1.1, r1.2.1, .error e)
    | .ok out =>
      let r2 := buildSeq env rest r1.1
      (r2.1, r1.2.1 ++ r2.2.1, r2.2.2.map fun outs => out :: outs)

/-- The enabling rule exactly as claim C5 states it: some required identifier
equals the script's name, or the name is a required identifier followed by
"-" and a non-empty suffix. -/
def c5ClaimRule (needed : List String) (name : String) : Prop :=
  ∃ n ∈ needed, name = n ∨ ∃ t : String, t ≠ "" ∧ name = n ++ "-" ++ t

/-- The amended enabling rule: some required identifier equals the script's
name, or the name is a required identifier followed by "-" and a possibly
empty suffix. -/
def c5AmendedRule (needed : List String) (name : String) : Prop :=
  ∃ n ∈ needed, name = n ∨ ∃ t : String, name = n ++ "-" ++ t

/-! Concrete fixtures for witnesses and counterexamples. -/

/-- A source section shared by the example configurations. -/
def srcsX : Sources := { cdn := { base_url := "https://cdn", variant := "full" }, cjk := { base_url := "https://cjk" } }

/-- An environment with no reachable network, empty charset files, fonts
covering code points 65 and 66, no external crashes, and a manifest mapping
"English" to "en" at the cached languages.json path. -/
def envX : Env :=
  { net := fun _ _ => true
    charsetFiles := fun _ => []
    fontCmap := fun _ => ({65, 66} : Finset Nat)
    crash := fun _ _ => false
    manifest := fun p => if p == "cache/languages.json" then .dict [("English", "en")] else .other }

/-- An environment whose network always fails and whose fonts are empty. -/
def envFail : Env :=
  { net := fun _ _ => false
    charsetFiles := fun _ => []
    fontCmap := fun _ => (∅ : Finset Nat)
    crash := fun _ _ => false
    manifest := fun _ => .other }

/-- An environment in which every external subset call crashes with a
non-ValueError exception. -/
def envCrash : Env :=
  { envX with crash := fun _ _ => true }

/-- Example script: latin, initially disabled, code points 65-66. -/
def scLatin : ScriptEntry :=
  { name := "latin", enabled := false, noto_font := "Latin-Regular.otf",
    noto_path := "latin", unicode_ranges := [.interval 65 66] }

/-- Example script: thai, initially enabled, code point 3585. -/
def scThai : ScriptEntry :=
  { name := "thai", enabled := true, noto_font := "Thai-Regular.otf",
    noto_path := "thai", unicode_ranges := [.single 3585] }

/-- Example script a, requesting code points 65-66. -/
def scA : ScriptEntry :=
  { name := "a", enabled := true, noto_font := "A-Regular.otf",
    noto_path := "a", unicode_ranges := [.interval 65 66] }

/-- Example script b, requesting the same code points as a. -/
def scB : ScriptEntry :=
  { name := "b", enabled := true, noto_font := "B-Regular.otf",
    noto_path := "b", unicode_ranges := [.single 65, .single 66] }

/-- Example script with no unicode ranges at all. -/
def scNone : ScriptEntry :=
  { name := "none", enabled := true, noto_font := "None-Regular.otf",
    noto_path := "none", unicode_ranges := [] }

/-- A minimal base configuration: no symbols, no emoji, no weights. -/
def cfgBase : BuildConfig :=
  { name := "OpFont", style := "Regular", output := "OpFont-Regular.otf",
    mode := "unified", cache_dir := "cache", output_dir := "dist",
    sources := srcsX, scripts := [scA, scB],
    symbols := { enabled := false, fonts := [], unicode_ranges := [] },
    emoji := { enabled := false, font := "" },
    merge := { drop_tables := ["vhea"] } }

/-- Cache state in which the fonts of scripts a and b are present. -/
def wAB : World := ["cache/A-Regular.otf", "cache/B-Regular.otf"]

/-- Configuration with a languages manifest URL and a latin/thai script pair
(latin initially disabled, thai enabled). -/
def cfgLang : BuildConfig :=
  { cfgBase with scripts := [scLatin, scThai],
                 languages_url := "https://x/languages.json" }

/-- Configuration whose single enabled script declares no code points. -/
def cfgNone : BuildConfig := { cfgBase with scripts := [scNone] }

/-- Configuration with symbols enabled and one declared symbol font. -/
def cfgSym : BuildConfig :=
  { cfgBase with scripts := [scA],
                 symbols := { enabled := true,
                              fonts := [{ name := "Sym.otf", path := "sym" }],
                              unicode_ranges := [.single 9650] } }

/-- Configuration with emoji declared and enabled and symbols disabled. -/
def cfgEmoji : BuildConfig :=
  { cfgBase with scripts := [scA],
                 emoji := { enabled := true, font := "Emoji.otf", path := "emoji" } }

/-- Configuration with two weights. -/
def cfgWeights : BuildConfig := { cfgBase with weights := ["Regular", "Bold"] }

/-- A network on which every attempt fails. -/
def netFail : String → Nat → Bool := fun _ _ => false

/-- A network on which only the third attempt succeeds. -/
def netThird : String → Nat → Bool := fun _ n => n == 3

/-! Helper lemmas. -/

theorem startsWithChars_iff (p : List Char) : ∀ s : List Char,
    startsWithChars p s = true ↔ ∃ t, s = p ++ t := by
  induction p with
  | nil =>
    intro s
    simp [startsWithChars]
  | cons a ps ih =>
    intro s
    cases s with
    | nil => simp [startsWithChars]
    | cons c cs =>
      simp only [startsWithChars, Bool.and_eq_true, beq_iff_eq, ih]
      constructor
      · rintro ⟨rfl, t, rfl⟩
        exact ⟨t, rfl⟩
      · rintro ⟨t, ht⟩
        cases ht
        exact ⟨rfl, t, rfl⟩

theorem strStartsWith_iff (s p : String) :
    strStartsWith s p = true ↔ ∃ t : String, s = p ++ t := by
  unfold strStartsWith
  rw [startsWithChars_iff]
  constructor
  · rintro ⟨tl, h⟩
    exact ⟨String.mk tl, String.ext (by simpa [String.data_append] using h)⟩
  · rintro ⟨t, rfl⟩
    exact ⟨t.data, by simp [String.data_append]⟩

/-! Claim C8.  The quantified claim fails: `rename_font` removes only space
characters (Python `replace(" ", "")`), so a tab in the family name survives
into the PostScript name.  The amended claim replaces "whitespace" by
"space characters". -/

/-- C8 counterexample: at family name "A\tB", style "Bold", the derived
PostScript name contains a whitespace character (a tab), refuting the claim
that it contains no whitespace characters for every family and style. -/
theorem c8_counterexample :
    ('\t' ∈ (ps_name "A\tB" "Bold").data) ∧ '\t'.isWhitespace = true := by
  constructor
  · decide
  · decide

/-- C8 (amended): for every family name, style name and version string,
`rename_font` derives a PostScript name equal to the family-style full name
with space characters removed (so it contains no space character), writes it
as name id 6, and derives a unique identifier (name id 3) that embeds the
version string. -/
theorem c8_rename_font_names (family_name style_name version : String) :
    ' ' ∉ (ps_name family_name style_name).data
    ∧ (ps_name family_name style_name).data
        = (family_name ++ "-" ++ style_name).data.filter (fun c => c ≠ ' ')
    ∧ (unique_id version family_name style_name).data
        = version.data ++ (";" ++ ps_name family_name style_name).data
    ∧ (6, ps_name family_name style_name) ∈ rename_entries family_name style_name version
    ∧ (3, unique_id version family_name style_name)
        ∈ rename_entries family_name style_name version := by
  refine ⟨?_, rfl, ?_, ?_, ?_⟩
  · simp [ps_name]
  · simp [unique_id, String.data_append]
  · simp [rename_entries]
  · simp [rename_entries]

/-- C8 witness: the amended theorem applied at name "Foo", style "Bold",
version "1.000". -/
theorem c8_witness :
    ' ' ∉ (ps_name "Foo" "Bold").data
    ∧ (6, ps_name "Foo" "Bold") ∈ rename_entries "Foo" "Bold" "1.000" :=
  ⟨(c8_rename_font_names "Foo" "Bold" "1.000").1,
   (c8_rename_font_names "Foo" "Bold" "1.000").2.2.2.1⟩

/-! Claim C5.  The quantified claim fails: `startswith(needed + "-")` also
matches a script name that is the required identifier followed by the
separator and an empty suffix.  The amended claim drops the non-emptiness of
the suffix. -/

/-- C5 counterexample: the declared script "cjk-" with required set {"cjk"}
is enabled by the code, while the claimed rule (which demands a non-empty
suffix) does not hold for it. -/
theorem c5_counterexample :
    (enable_scripts_for
        [{ name := "cjk-", enabled := false, noto_font := "f", noto_path := "p",
           unicode_ranges := [] }] ["cjk"]).map (·.enabled) = [true]
    ∧ ¬ c5ClaimRule ["cjk"] "cjk-" := by
  constructor
  · decide
  · rintro ⟨n, hn, h⟩
    simp only [List.mem_singleton] at hn
    subst hn
    rcases h with h | ⟨t, hne, ht⟩
    · exact absurd h (by decide)
    · have hd := congrArg String.data ht
      simp only [String.data_append] at hd
      have htd : t.data = [] := by
        have : ("cjk-" : String).data = ("cjk-" : String).data ++ t.data := by
          simpa using hd
        simpa using this.symm
      exact hne (String.ext (by simpa using htd))

/-- C5 (amended): `enable_scripts_for` keeps names and order, and sets a
script's enabled flag to true iff some required identifier equals the
script's name or the name is that identifier followed by "-" and a possibly
empty suffix; the flags are a pure function of the declared names and the
required set. -/
theorem c5_enable_scripts_for_spec (scripts : List ScriptEntry) (needed : List String) :
    ((enable_scripts_for scripts needed).map (·.name) = scripts.map (·.name))
    ∧ (∀ (i : Nat) (s : ScriptEntry), scripts[i]? = some s →
        ∃ s2 : ScriptEntry, (enable_scripts_for scripts needed)[i]? = some s2
          ∧ s2.name = s.name
          ∧ (s2.enabled = true ↔ c5AmendedRule needed s.name))
    ∧ (∀ scripts2 : List ScriptEntry, scripts2.map (·.name) = scripts.map (·.name) →
        (enable_scripts_for scripts2 needed).map (·.enabled)
          = (enable_scripts_for scripts needed).map (·.enabled)) := by
  have flag : ∀ s : ScriptEntry,
      ((needed.any fun n => s.name == n || strStartsWith s.name (n ++ "-")) = true
        ↔ c5AmendedRule needed s.name) := by
    intro s
    simp only [List.any_eq_true, Bool.or_eq_true, beq_iff_eq, c5AmendedRule]
    constructor
    · rintro ⟨n, hn, h | h⟩
      · exact ⟨n, hn, Or.inl h⟩
      · rcases (strStartsWith_iff _ _).1 h with ⟨t, ht⟩
        exact ⟨n, hn, Or.inr ⟨t, by simpa [String.append_assoc] using ht⟩⟩
    · rintro ⟨n, hn, h | ⟨t, ht⟩⟩
      · exact ⟨n, hn, Or.inl h⟩
      · refine ⟨n, hn, Or.inr ((strStartsWith_iff _ _).2 ⟨t, ?_⟩)⟩
        simpa [String.append_assoc] using ht
  refine ⟨?_, ?_, ?_⟩
  · simp [enable_scripts_for]
  · intro i s hs
    refine ⟨{ s with enabled := needed.any fun n =>
        s.name == n || strStartsWith s.name (n ++ "-") }, ?_, rfl, flag s⟩
    simp [enable_scripts_for, List.getElem?_map, hs]
  · intro scripts2 hnames
    induction scripts generalizing scripts2 with
    | nil =>
      cases scripts2 with
      | nil => rfl
      | cons a l => simp at hnames
    | cons a l ih =>
      cases scripts2 with
      | nil => simp at hnames
      | cons b m =>
        simp only [List.map_cons, List.cons.injEq] at hnames
        simp only [enable_scripts_for, List.map_cons, List.cons.injEq]
        exact ⟨by rw [hnames.1], by simpa [enable_scripts_for] using ih m hnames.2⟩

/-- C5 witness: the amended theorem applied at the declared script "cjk-sc"
with required set {"cjk"}: the script is enabled and the amended rule holds
for it. -/
theorem c5_witness :
    (enable_scripts_for
        [{ name := "cjk-sc", enabled := false, noto_font := "f", noto_path := "p",
           unicode_ranges := [] }] ["cjk"]).map (·.enabled) = [true]
    ∧ c5AmendedRule ["cjk"] "cjk-sc" := by
  have h := (c5_enable_scripts_for_spec
      [{ name := "cjk-sc", enabled := false, noto_font := "f", noto_path := "p",
         unicode_ranges := [] }] ["cjk"]).2.1 0
      { name := "cjk-sc", enabled := false, noto_font := "f", noto_path := "p",
        unicode_ranges := [] } rfl
  rcases h with ⟨s2, hs2, _, hiff⟩
  have hv : (enable_scripts_for
      [{ name := "cjk-sc", enabled := false, noto_font := "f", noto_path := "p",
         unicode_ranges := [] }] ["cjk"])[0]?
      = some { name := "cjk-sc", enabled := true, noto_font := "f", noto_path := "p",
               unicode_ranges := [] } := by decide
  rw [hv] at hs2
  have hs2v := (Option.some_inj.mp hs2).symm
  constructor
  · decide
  · exact hiff.1 (by rw [hs2v])

/-- The source's conditional filter (skip the filter when nothing is covered
yet) agrees with the unconditional filter. -/
theorem covered_filter (covered : Finset Nat) (l : List Nat) :
    (if covered = ∅ then l else l.filter (fun cp => cp ∉ covered))
      = l.filter (fun cp => cp ∉ covered) := by
  split
  · next h =>
    subst h
    exact (List.filter_eq_self.mpr (by simp)).symm
  · rfl

/-- Unfolding of one step of the subsetting loop, with the conditional
filter normalized away. -/
theorem subsetScripts_cons (env : Env) (config : BuildConfig)
    (fonts : List (String × String)) (work_dir : String) (script : ScriptEntry)
    (rest : List ScriptEntry) (covered : Finset Nat) (acc : List String) (w : World) :
    subsetScripts env config fonts work_dir (script :: rest) covered acc w
      = (let src := dictGet fonts script.name
         let out := work_dir ++ "/subset_" ++ script.name ++ ".otf"
         let codepoints := (_resolve_codepoints env script config).filter (fun cp => cp ∉ covered)
         if codepoints = [] then
           let r := subsetScripts env config fonts work_dir rest covered acc w
           (r.1, .skipEmptyScript script.name :: r.2.1, r.2.2)
         else
           match subset_call env src codepoints with
           | .ok cmap =>
             let r := subsetScripts env config fonts work_dir rest (covered ∪ cmap)
               (acc ++ [out]) (out :: w)
             (r.1, .subsetRun script.name src out codepoints :: r.2.1, r.2.2)
           | .valueErr =>
             let r := subsetScripts env config fonts work_dir rest covered acc w
             (r.1, .skipValueError script.name :: r.2.1, r.2.2)
           | .err => (w, [.subsetError script.name], .error .externalFailure)) := by
  simp only [subsetScripts, covered_filter]

theorem downloadAttempts_eff (net : String → Nat → Bool) (url dest : String) (w : World)
    (attempts : List Nat) :
    ∀ e ∈ (downloadAttempts net url dest w attempts).2.1, isNetEff e := by
  induction attempts with
  | nil => simp [downloadAttempts]
  | cons a rest ih =>
    intro e he
    cases hnet : net url a with
    | true =>
      simp only [downloadAttempts, hnet, if_true] at he
      rcases List.mem_cons.mp he with rfl | he
      · exact trivial
      · simp only [List.mem_singleton] at he
        subst he
        exact trivial
    | false =>
      cases hmax : (a == MAX_RETRIES) with
      | true =>
        simp only [downloadAttempts, hnet, hmax, Bool.false_eq_true, if_false, if_true] at he
        simp only [List.mem_singleton] at he
        subst he
        exact trivial
      | false =>
        simp only [downloadAttempts, hnet, hmax, Bool.false_eq_true, if_false] at he
        rcases List.mem_cons.mp he with rfl | he
        · exact trivial
        · rcases List.mem_cons.mp he with rfl | he
          · exact trivial
          · exact ih e he

theorem download_eff (net : String → Nat → Bool) (url dest : String) (w : World) :
    ∀ e ∈ (download net url dest w).2.1, isNetEff e :=
  downloadAttempts_eff net url dest w _

theorem ensure_font_eff (env : Env) (config : BuildConfig) (script : ScriptEntry)
    (w : World) : ∀ e ∈ (ensure_font env config script w).2.1, isNetEff e := by
  intro e he
  simp only [ensure_font] at he
  split at he
  · simp at he
  · exact download_eff _ _ _ _ e he

theorem fetchScripts_eff (env : Env) (config : BuildConfig) :
    ∀ (scripts : List ScriptEntry) (w : World),
      ∀ e ∈ (fetchScripts env config scripts w).2.1, isNetEff e := by
  intro scripts
  induction scripts with
  | nil => intro w e he; simp [fetchScripts] at he
  | cons script rest ih =>
    intro w e he
    simp only [fetchScripts] at he
    split at he
    · exact ensure_font_eff env config script w e he
    · rcases List.mem_append.mp he with he | he
      · exact ensure_font_eff env config script w e he
      · exact ih _ e he

theorem subsetScripts_eff (env : Env) (config : BuildConfig)
    (fonts : List (String × String)) (work_dir : String) :
    ∀ (scripts : List ScriptEntry) (covered : Finset Nat) (acc : List String) (w : World),
      ∀ e ∈ (subsetScripts env config fonts work_dir scripts covered acc w).2.1,
        isScriptSubsetEff e := by
  intro scripts
  induction scripts with
  | nil => intro covered acc w e he; simp [subsetScripts] at he
  | cons script rest ih =>
    intro covered acc w e he
    rw [subsetScripts_cons] at he
    simp only [] at he
    by_cases hemp :
        (_resolve_codepoints env script config).filter (fun cp => cp ∉ covered) = []
    · simp only [if_pos hemp] at he
      rcases List.mem_cons.mp he with rfl | he
      · exact trivial
      · exact ih _ _ _ e he
    · simp only [if_neg hemp] at he
      cases hsc : subset_call env (dictGet fonts script.name)
          ((_resolve_codepoints env script config).filter (fun cp => cp ∉ covered)) with
      | ok cmap =>
        simp only [hsc] at he
        rcases List.mem_cons.mp he with rfl | he
        · exact trivial
        · exact ih _ _ _ e he
      | valueErr =>
        simp only [hsc] at he
        rcases List.mem_cons.mp he with rfl | he
        · exact trivial
        · exact ih _ _ _ e he
      | err =>
        simp only [hsc] at he
        simp only [List.mem_singleton] at he
        subst he
        exact trivial

theorem subsetSymbolPaths_eff (env : Env) (sym_cps : List Nat) (work_dir : String) :
    ∀ (paths : List String) (acc : List String) (w : World),
      ∀ e ∈ (subsetSymbolPaths env sym_cps work_dir paths acc w).2.1,
        isSymbolSubsetEff e := by
  intro paths
  induction paths with
  | nil => intro acc w e he; simp [subsetSymbolPaths] at he
  | cons sp rest ih =>
    intro acc w e he
    simp only [subsetSymbolPaths] at he
    cases hsc : subset_call env sp sym_cps with
    | ok cmap =>
      simp only [hsc] at he
      rcases List.mem_cons.mp he with rfl | he
      · exact trivial
      · exact ih _ _ e he
    | valueErr =>
      simp only [hsc] at he
      rcases List.mem_cons.mp he with rfl | he
      · exact trivial
      · exact ih _ _ e he
    | err =>
      simp only [hsc] at he
      simp only [List.mem_singleton] at he
      subst he
      exact trivial

theorem subsetSymbols_eff (env : Env) (config : BuildConfig) (work_dir : String)
    (symbol_paths : List String) (acc : List String) (w : World) :
    ∀ e ∈ (subsetSymbols env config work_dir symbol_paths acc w).2.1,
      isSymbolSubsetEff e := by
  intro e he
  simp only [subsetSymbols] at he
  split at he
  · exact subsetSymbolPaths_eff env _ work_dir symbol_paths acc w e he
  · simp at he

/-- If a build run ends in an error, its trace holds only fetch effects, the
working-directory creation, and per-script or symbol subsetting effects. -/
theorem build_error_mem (env : Env) (config0 : BuildConfig) (lj : Option String)
    (w0 : World) (er : Err) (he : (build env config0 lj w0).2.2 = .error er) :
    ∀ e0 ∈ (build env config0 lj w0).2.1,
      isNetEff e0 ∨ e0 = .mkdtemp WORK_DIR ∨ isScriptSubsetEff e0 ∨ isSymbolSubsetEff e0 := by
  intro e0 hmem
  match hac : buildAppliedConfig env config0 lj with
  | .error e2 =>
    simp only [build, hac] at hmem
    simp at hmem
  | .ok config =>
    simp only [build, hac] at he hmem
    by_cases hen : config.scripts.filter (·.enabled) = []
    · rw [if_pos hen] at hmem
      simp at hmem
    · rw [if_neg hen] at he hmem
      match hf : (fetchScripts env config (config.scripts.filter (·.enabled)) w0).2.2 with
      | .error e1 =>
        simp only [hf] at he hmem
        exact Or.inl (fetchScripts_eff env config _ w0 _ hmem)
      | .ok font_paths =>
        simp only [hf] at he hmem
        match hy : (if config.symbols.enabled then
                      match config.symbols.fonts with
                      | [] => Except.ok ([] : List String)
                      | _ :: _ => Except.error Err.typeError
                    else Except.ok ([] : List String)) with
        | .error e1 =>
          simp only [hy] at he hmem
          exact Or.inl (fetchScripts_eff env config _ w0 _ hmem)
        | .ok symbol_paths =>
          simp only [hy] at he hmem
          match hs : (subsetScripts env config font_paths WORK_DIR
              (config.scripts.filter (·.enabled)) ∅ []
              (fetchScripts env config (config.scripts.filter (·.enabled)) w0).1).2.2 with
          | .error e1 =>
            simp only [hs] at he hmem
            rcases List.mem_append.mp hmem with hm | hm
            · exact Or.inl (fetchScripts_eff env config _ w0 _ hm)
            · rcases List.mem_cons.mp hm with hm | hm
              · exact Or.inr (Or.inl hm)
              · exact Or.inr (Or.inr (Or.inl
                  (subsetScripts_eff env config font_paths WORK_DIR _ _ _ _ _ hm)))
          | .ok sc =>
            simp only [hs] at he hmem
            match hsy : (subsetSymbols env config WORK_DIR symbol_paths sc.1
                (subsetScripts env config font_paths WORK_DIR
                  (config.scripts.filter (·.enabled)) ∅ []
                  (fetchScripts env config (config.scripts.filter (·.enabled)) w0).1).1).2.2 with
            | .error e1 =>
              simp only [hsy] at he hmem
              rcases List.mem_append.mp hmem with hm | hm
              · exact Or.inl (fetchScripts_eff env config _ w0 _ hm)
              · rcases List.mem_cons.mp hm with hm | hm
                · exact Or.inr (Or.inl hm)
                · rcases List.mem_append.mp hm with hm2 | hm2
                  · exact Or.inr (Or.inr (Or.inl
                      (subsetScripts_eff env config font_paths WORK_DIR _ _ _ _ _ hm2)))
                  · exact Or.inr (Or.inr (Or.inr
                      (subsetSymbols_eff env config WORK_DIR symbol_paths sc.1 _ _ hm2)))
            | .ok subset_paths =>
              simp only [hsy] at he hmem
              by_cases hsp : subset_paths = []
              · rw [if_pos hsp] at hmem
                rcases List.mem_append.mp hmem with hm | hm
                · exact Or.inl (fetchScripts_eff env config _ w0 _ hm)
                · rcases List.mem_cons.mp hm with hm | hm
                  · exact Or.inr (Or.inl hm)
                  · rcases List.mem_append.mp hm with hm2 | hm2
                    · exact Or.inr (Or.inr (Or.inl
                        (subsetScripts_eff env config font_paths WORK_DIR _ _ _ _ _ hm2)))
                    · exact Or.inr (Or.inr (Or.inr
                        (subsetSymbols_eff env config WORK_DIR symbol_paths sc.1 _ _ hm2)))
              · rw [if_neg hsp] at he
                simp at he

/-- If a build run ends in an error, no merge was performed. -/
theorem build_error_no_merge (env : Env) (config0 : BuildConfig) (lj : Option String)
    (w0 : World) (er : Err) (he : (build env config0 lj w0).2.2 = .error er) :
    ∀ ins o, Eff.mergeRun ins o ∉ (build env config0 lj w0).2.1 := by
  intro ins o hmem
  rcases build_error_mem env config0 lj w0 er he _ hmem with h | h | h | h <;>
    simp [isNetEff, isScriptSubsetEff, isSymbolSubsetEff] at h

/-- If a build run ends in an error, the working directory is not removed. -/
theorem build_error_no_rmtree (env : Env) (config0 : BuildConfig) (lj : Option String)
    (w0 : World) (er : Err) (he : (build env config0 lj w0).2.2 = .error er) :
    ∀ d, Eff.rmtree d ∉ (build env config0 lj w0).2.1 := by
  intro d hmem
  rcases build_error_mem env config0 lj w0 er he _ hmem with h | h | h | h <;>
    simp [isNetEff, isScriptSubsetEff, isSymbolSubsetEff] at h

/-- A successful build removes its temporary working directory. -/
theorem build_ok_rmtree (env : Env) (config0 : BuildConfig) (lj : Option String)
    (w0 : World) (p : String) (he : (build env config0 lj w0).2.2 = .ok p) :
    Eff.rmtree WORK_DIR ∈ (build env config0 lj w0).2.1 := by
  match hac : buildAppliedConfig env config0 lj with
  | .error e2 =>
    simp only [build, hac] at he
    simp at he
  | .ok config =>
    simp only [build, hac] at he ⊢
    by_cases hen : config.scripts.filter (·.enabled) = []
    · rw [if_pos hen] at he
      simp at he
    · rw [if_neg hen] at he ⊢
      match hf : (fetchScripts env config (config.scripts.filter (·.enabled)) w0).2.2 with
      | .error e1 =>
        simp only [hf] at he
        simp at he
      | .ok font_paths =>
        simp only [hf] at he ⊢
        match hy : (if config.symbols.enabled then
                      match config.symbols.fonts with
                      | [] => Except.ok ([] : List String)
                      | _ :: _ => Except.error Err.typeError
                    else Except.ok ([] : List String)) with
        | .error e1 =>
          simp only [hy] at he
          simp at he
        | .ok symbol_paths =>
          simp only [hy] at he ⊢
          match hs : (subsetScripts env config font_paths WORK_DIR
              (config.scripts.filter (·.enabled)) ∅ []
              (fetchScripts env config (config.scripts.filter (·.enabled)) w0).1).2.2 with
          | .error e1 =>
            simp only [hs] at he
            simp at he
          | .ok sc =>
            simp only [hs] at he ⊢
            match hsy : (subsetSymbols env config WORK_DIR symbol_paths sc.1
                (subsetScripts env config font_paths WORK_DIR
                  (config.scripts.filter (·.enabled)) ∅ []
                  (fetchScripts env config (config.scripts.filter (·.enabled)) w0).1).1).2.2 with
            | .error e1 =>
              simp only [hsy] at he
              simp at he
            | .ok subset_paths =>
              simp only [hsy] at he ⊢
              by_cases hsp : subset_paths = []
              · rw [if_pos hsp] at he
                simp at he
              · rw [if_neg hsp]
                simp

/-! Claim C3: the cache key of every font resolution request is the logical
font file name alone. -/

/-- C3: for `ensure_font`, `ensure_symbol_font` and `ensure_url_font`, when a
file with the logical font name already exists in the cache directory the
cached path is returned unchanged, with no effects (in particular no network
request), regardless of the URL the request would resolve to; in particular
`ensure_url_font` returns the same result for any two URLs. -/
theorem c3_cache_key_is_name (env : Env) (config : BuildConfig) (script : ScriptEntry)
    (font_name font_path url url2 : String) (w : World)
    (hscript : w.contains (cache_path config.cache_dir script.noto_font) = true)
    (hname : w.contains (cache_path config.cache_dir font_name) = true) :
    ensure_font env config script w
      = (w, [], .ok (cache_path config.cache_dir script.noto_font))
    ∧ ensure_symbol_font env config font_name font_path w
      = (w, [], .ok (cache_path config.cache_dir font_name))
    ∧ ensure_url_font env config font_name url w
      = (w, [], .ok (cache_path config.cache_dir font_name))
    ∧ ensure_url_font env config font_name url w
      = ensure_url_font env config font_name url2 w := by
  have hs : cache_path config.cache_dir script.noto_font ∈ w := by simpa using hscript
  have hn : cache_path config.cache_dir font_name ∈ w := by simpa using hname
  refine ⟨?_, ?_, ?_, ?_⟩ <;>
    simp [ensure_font, ensure_symbol_font, ensure_url_font, hs, hn]

/-- C3 witness: with the cache holding A-Regular.otf, `ensure_font` and
`ensure_url_font` (under two different URLs) return the cached path with an
empty trace. -/
theorem c3_witness :
    ensure_font envX cfgBase scA wAB = (wAB, [], .ok "cache/A-Regular.otf")
    ∧ ensure_url_font envX cfgBase "A-Regular.otf" "https://one" wAB
        = ensure_url_font envX cfgBase "A-Regular.otf" "https://two" wAB := by
  have h := c3_cache_key_is_name envX cfgBase scA "A-Regular.otf" "p"
    "https://one" "https://two" wAB (by decide) (by decide)
  exact ⟨h.1, h.2.2.2⟩

/-! Claim C4: the retry behaviour of `_download`. -/

/-- C4: `_download` attempts the GET at most 3 times; it succeeds exactly
when one of the first three attempts succeeds, in which case the file is
written; if all 3 attempts fail it raises the fatal download error, leaving
the file system unchanged, having attempted exactly 3 times and never
written the file; every sleep is `RETRY_DELAY * n` for some failed attempt
`n < 3`, and each failed attempt `n < 3` is followed by such a sleep.
A build whose result is a download failure performs no merge. -/
theorem c4_download_retry (net : String → Nat → Bool) (url dest : String) (w : World) :
    (((download net url dest w).2.1.filterMap effAttempt).length ≤ 3
    ∧ ((download net url dest w).2.2 = .ok ()
        ↔ (net url 1 = true ∨ net url 2 = true ∨ net url 3 = true))
    ∧ ((download net url dest w).2.2 = .ok () → (download net url dest w).1 = dest :: w)
    ∧ (∀ e, (download net url dest w).2.2 = .error e →
        e = .downloadFailed url
        ∧ (download net url dest w).1 = w
        ∧ .writeFile dest ∉ (download net url dest w).2.1
        ∧ (download net url dest w).2.1.filterMap effAttempt = [1, 2, 3])
    ∧ (∀ n, .httpGet url n ∈ (download net url dest w).2.1 → net url n = false →
        n < MAX_RETRIES → .sleep (RETRY_DELAY * n) ∈ (download net url dest w).2.1)
    ∧ (∀ s, .sleep s ∈ (download net url dest w).2.1 →
        ∃ n, 1 ≤ n ∧ n < MAX_RETRIES ∧ net url n = false ∧ s = RETRY_DELAY * n))
    ∧ (∀ (env : Env) (config : BuildConfig) (lj : Option String) (w0 : World) (u : String),
        (build env config lj w0).2.2 = .error (.downloadFailed u) →
        ∀ ins o, Eff.mergeRun ins o ∉ (build env config lj w0).2.1) := by
  constructor
  · have hr : List.range' 1 MAX_RETRIES = [1, 2, 3] := rfl
    cases h1 : net url 1 <;> cases h2 : net url 2 <;> cases h3 : net url 3 <;>
      simp [download, hr, downloadAttempts, h1, h2, h3, MAX_RETRIES, RETRY_DELAY,
        effAttempt]
    all_goals
      first
        | omega
        | exact ⟨1, by omega, by omega, h1, by omega⟩
        | exact ⟨2, by omega, by omega, h2, by omega⟩
        | exact ⟨⟨1, by omega, by omega, h1, by omega⟩,
            ⟨2, by omega, by omega, h2, by omega⟩⟩
  · intro env config lj w0 u he ins o
    exact build_error_no_merge env config lj w0 _ he ins o

/-- C4 witness: with a network that succeeds only on the third attempt, the
download succeeds and writes the file; when every attempt fails, the
download raises the fatal error after exactly three attempts with the
backoff sleep after the first failure. -/
theorem c4_witness :
    (download netThird "https://u" "cache/f" []).2.2 = .ok ()
    ∧ (download netThird "https://u" "cache/f" []).1 = ["cache/f"]
    ∧ (download netFail "https://u" "cache/f" []).2.2
        = .error (.downloadFailed "https://u")
    ∧ (download netFail "https://u" "cache/f" []).2.1.filterMap effAttempt = [1, 2, 3]
    ∧ .sleep 2 ∈ (download netFail "https://u" "cache/f" []).2.1 := by
  have h := c4_download_retry netThird "https://u" "cache/f" []
  have h2 := c4_download_retry netFail "https://u" "cache/f" []
  have hok : (download netThird "https://u" "cache/f" []).2.2 = .ok () :=
    h.1.2.1.mpr (Or.inr (Or.inr (by decide)))
  refine ⟨hok, h.1.2.2.1 hok, ?_, ?_, ?_⟩
  · exact ((h2.1.2.2.2.1 (.downloadFailed "https://u") rfl).1 ▸ rfl)
  · exact (h2.1.2.2.2.1 (.downloadFailed "https://u") rfl).2.2.2
  · have := h2.1.2.2.2.2.1 1 (by decide) (by decide) (by decide)
    simpa [RETRY_DELAY] using this

/-- A trace of pure download effects contains no subsetting decisions. -/
theorem netTrace_no_decisions (l : List Eff) (h : ∀ e ∈ l, isNetEff e) :
    l.filterMap decisionOfEff = [] ∧ l.filterMap subsettedName = [] := by
  induction l with
  | nil => simp
  | cons e rest ih =>
    have he := h e (List.mem_cons_self e rest)
    have hr := ih (fun e2 he2 => h e2 (List.mem_cons_of_mem e he2))
    cases e <;> simp [isNetEff] at he <;>
      simp [List.filterMap_cons, decisionOfEff, subsettedName, hr]

/-- When the subsetting loop succeeds, its decisions cover exactly the
processed scripts, in declared order. -/
theorem subsetScripts_ok_names (env : Env) (config : BuildConfig)
    (fonts : List (String × String)) (work_dir : String) :
    ∀ (scripts : List ScriptEntry) (covered : Finset Nat) (acc : List String) (w : World)
      (sc : List String × Finset Nat),
      (subsetScripts env config fonts work_dir scripts covered acc w).2.2 = .ok sc →
      ((subsetScripts env config fonts work_dir scripts covered acc w).2.1.filterMap
          decisionOfEff).map decisionName = scripts.map (·.name) := by
  intro scripts
  induction scripts with
  | nil => intro covered acc w sc _; simp [subsetScripts]
  | cons script rest ih =>
    intro covered acc w sc hok
    rw [subsetScripts_cons] at hok ⊢
    simp only [] at hok ⊢
    by_cases hemp :
        (_resolve_codepoints env script config).filter (fun cp => cp ∉ covered) = []
    · simp only [if_pos hemp] at hok ⊢
      simp only [List.filterMap_cons, decisionOfEff, List.map_cons, List.map, decisionName]
      rw [ih _ _ _ _ hok]
    · simp only [if_neg hemp] at hok ⊢
      cases hsc : subset_call env (dictGet fonts script.name)
          ((_resolve_codepoints env script config).filter (fun cp => cp ∉ covered)) with
      | ok cmap =>
        simp only [hsc] at hok ⊢
        simp only [List.filterMap_cons, decisionOfEff, List.map_cons, List.map, decisionName]
        rw [ih _ _ _ _ hok]
      | valueErr =>
        simp only [hsc] at hok ⊢
        simp only [List.filterMap_cons, decisionOfEff, List.map_cons, List.map, decisionName]
        rw [ih _ _ _ _ hok]
      | err =>
        simp only [hsc] at hok
        simp at hok

/-- The scripts the loop actually subsets are a subsequence of the processed
scripts. -/
theorem subsetScripts_subsetted_sublist (env : Env) (config : BuildConfig)
    (fonts : List (String × String)) (work_dir : String) :
    ∀ (scripts : List ScriptEntry) (covered : Finset Nat) (acc : List String) (w : World),
      List.Sublist
        ((subsetScripts env config fonts work_dir scripts covered acc w).2.1.filterMap
          subsettedName)
        (scripts.map (·.name)) := by
  intro scripts
  induction scripts with
  | nil => intro covered acc w; simp [subsetScripts]
  | cons script rest ih =>
    intro covered acc w
    rw [subsetScripts_cons]
    simp only []
    by_cases hemp :
        (_resolve_codepoints env script config).filter (fun cp => cp ∉ covered) = []
    · simp only [if_pos hemp]
      simp only [List.filterMap_cons, subsettedName, List.map_cons]
      exact List.Sublist.cons _ (ih _ _ _)
    · simp only [if_neg hemp]
      cases hsc : subset_call env (dictGet fonts script.name)
          ((_resolve_codepoints env script config).filter (fun cp => cp ∉ covered)) with
      | ok cmap =>
        simp only [hsc, List.filterMap_cons, subsettedName, List.map_cons]
        exact List.Sublist.cons₂ _ (ih _ _ _)
      | valueErr =>
        simp only [hsc, List.filterMap_cons, subsettedName, List.map_cons]
        exact List.Sublist.cons _ (ih _ _ _)
      | err =>
        simp only [hsc, List.filterMap_cons, subsettedName, List.map_cons,
          List.filterMap_nil]
        exact List.nil_sublist _

/-- When the loop succeeds, the produced subset paths are the accumulator
followed by one subset file per actually-subsetted script, in order. -/
theorem subsetScripts_ok_paths (env : Env) (config : BuildConfig)
    (fonts : List (String × String)) (work_dir : String) :
    ∀ (scripts : List ScriptEntry) (covered : Finset Nat) (acc : List String) (w : World)
      (sc : List String × Finset Nat),
      (subsetScripts env config fonts work_dir scripts covered acc w).2.2 = .ok sc →
      sc.1 = acc
        ++ ((subsetScripts env config fonts work_dir scripts covered acc w).2.1.filterMap
            subsettedName).map (fun n => work_dir ++ "/subset_" ++ n ++ ".otf") := by
  intro scripts
  induction scripts with
  | nil =>
    intro covered acc w sc hok
    simp only [subsetScripts] at hok ⊢
    simp only [Except.ok.injEq] at hok
    subst hok
    simp
  | cons script rest ih =>
    intro covered acc w sc hok
    rw [subsetScripts_cons] at hok ⊢
    simp only [] at hok ⊢
    by_cases hemp :
        (_resolve_codepoints env script config).filter (fun cp => cp ∉ covered) = []
    · simp only [if_pos hemp] at hok ⊢
      simp only [List.filterMap_cons, subsettedName]
      exact ih _ _ _ _ hok
    · simp only [if_neg hemp] at hok ⊢
      cases hsc : subset_call env (dictGet fonts script.name)
          ((_resolve_codepoints env script config).filter (fun cp => cp ∉ covered)) with
      | ok cmap =>
        simp only [hsc] at hok ⊢
        simp only [List.filterMap_cons, subsettedName, List.map_cons]
        rw [ih _ _ _ _ hok]
        simp
      | valueErr =>
        simp only [hsc] at hok ⊢
        simp only [List.filterMap_cons, subsettedName]
        exact ih _ _ _ _ hok
      | err =>
        simp only [hsc] at hok
        simp at hok

/-- Symbol subsetting over an empty symbol-path list does nothing. -/
theorem subsetSymbols_nil (env : Env) (config : BuildConfig) (work_dir : String)
    (acc : List String) (w : World) :
    subsetSymbols env config work_dir [] acc w = (w, [], .ok acc) := by
  simp only [subsetSymbols]
  split
  · rfl
  · rfl

/-- Shape of a successful build run: the applied configuration, the fetch
stage, the subsetting stage, and the final trace with its single merge. -/
theorem build_ok_shape (env : Env) (config0 : BuildConfig) (lj : Option String)
    (w0 : World) (p : String) (he : (build env config0 lj w0).2.2 = .ok p) :
    ∃ cfg, buildAppliedConfig env config0 lj = .ok cfg
      ∧ ∃ font_paths sc,
        (fetchScripts env cfg (cfg.scripts.filter (·.enabled)) w0).2.2 = .ok font_paths
        ∧ (subsetScripts env cfg font_paths WORK_DIR (cfg.scripts.filter (·.enabled)) ∅ []
            (fetchScripts env cfg (cfg.scripts.filter (·.enabled)) w0).1).2.2 = .ok sc
        ∧ p = cfg.output_dir ++ "/" ++ cfg.output
        ∧ (build env config0 lj w0).2.1
            = (fetchScripts env cfg (cfg.scripts.filter (·.enabled)) w0).2.1
              ++ .mkdtemp WORK_DIR
                :: ((subsetScripts env cfg font_paths WORK_DIR
                      (cfg.scripts.filter (·.enabled)) ∅ []
                      (fetchScripts env cfg (cfg.scripts.filter (·.enabled)) w0).1).2.1 ++ [])
              ++ [.mkdirOutput cfg.output_dir, .mergeRun sc.1 p]
              ++ (if cfg.merge.keep_features ≠ [] then [.pruneRun p] else [])
              ++ [.renameRun p cfg.name cfg.style, .fixMetricsRun p, .subroutinizeRun p,
                  .rmtree WORK_DIR] := by
  match hac : buildAppliedConfig env config0 lj with
  | .error e2 =>
    simp only [build, hac] at he
    simp at he
  | .ok config =>
    refine ⟨config, rfl, ?_⟩
    simp only [build, hac] at he ⊢
    by_cases hen : config.scripts.filter (·.enabled) = []
    · rw [if_pos hen] at he
      simp at he
    · rw [if_neg hen] at he ⊢
      match hf : (fetchScripts env config (config.scripts.filter (·.enabled)) w0).2.2 with
      | .error e1 =>
        simp only [hf] at he
        simp at he
      | .ok font_paths =>
        simp only [hf] at he ⊢
        refine ⟨font_paths, ?_⟩
        match hy : (if config.symbols.enabled then
                      match config.symbols.fonts with
                      | [] => Except.ok ([] : List String)
                      | _ :: _ => Except.error Err.typeError
                    else Except.ok ([] : List String)) with
        | .error e1 =>
          simp only [hy] at he
          simp at he
        | .ok symbol_paths =>
          have hsp0 : symbol_paths = [] := by
            by_cases hse : config.symbols.enabled
            · rw [if_pos hse] at hy
              cases hcf : config.symbols.fonts with
              | nil =>
                rw [hcf] at hy
                simpa using hy.symm
              | cons a l =>
                rw [hcf] at hy
                simp at hy
            · rw [if_neg hse] at hy
              simpa using hy.symm
          subst hsp0
          simp only [hy] at he ⊢
          match hs : (subsetScripts env config font_paths WORK_DIR
              (config.scripts.filter (·.enabled)) ∅ []
              (fetchScripts env config (config.scripts.filter (·.enabled)) w0).1).2.2 with
          | .error e1 =>
            simp only [hs] at he
            simp at he
          | .ok sc =>
            refine ⟨sc, by trivial, by rfl, ?_⟩
            simp only [hs] at he ⊢
            rw [subsetSymbols_nil] at he ⊢
            simp only [] at he ⊢
            by_cases hsp : sc.1 = []
            · rw [if_pos hsp] at he
              simp at he
            · rw [if_neg hsp] at he ⊢
              simp only [Except.ok.injEq] at he
              exact ⟨he.symm, by rw [he]⟩

/-! Claim C2: dedup policy of the subsetting phase. -/

/-- C2: the per-script decisions of the subsetting loop, read off its trace,
are exactly the policy the claim describes: scripts processed in declared
order with a running covered set updated from each produced subset's actual
character map; every script's requested code-point set filtered to exclude
already-covered points before subsetting; an empty filtered set skipped
(logged) rather than an error. -/
theorem c2_subset_dedup (env : Env) (config : BuildConfig)
    (fonts : List (String × String)) (work_dir : String) :
    ∀ (scripts : List ScriptEntry) (covered : Finset Nat) (acc : List String) (w : World),
      (subsetScripts env config fonts work_dir scripts covered acc w).2.1.filterMap decisionOfEff
        = specSubsetDecisions env config fonts scripts covered := by
  intro scripts
  induction scripts with
  | nil => intro covered acc w; simp [subsetScripts, specSubsetDecisions]
  | cons script rest ih =>
    intro covered acc w
    rw [subsetScripts_cons]
    simp only [specSubsetDecisions]
    by_cases hemp :
        (_resolve_codepoints env script config).filter (fun cp => cp ∉ covered) = []
    · simp only [if_pos hemp, List.filterMap_cons, decisionOfEff, ih]
    · simp only [if_neg hemp]
      cases hsc : subset_call env (dictGet fonts script.name)
          ((_resolve_codepoints env script config).filter (fun cp => cp ∉ covered)) with
      | ok cmap => simp only [hsc, List.filterMap_cons, decisionOfEff, ih]
      | valueErr => simp only [hsc, List.filterMap_cons, decisionOfEff, ih]
      | err => simp only [hsc, List.filterMap_cons, decisionOfEff, List.filterMap_nil]

/-! Claim C7: cleanup of the temporary working directory.  The claim fails:
`build` removes the directory only on its success path; an error raised
after the directory was created leaves it behind (there is no try/finally
around lines 149-205 of pipeline.py). -/

/-- C7 counterexample: a build whose only enabled script declares no code
points creates the working directory, then aborts with the all-subsets-empty
error without ever removing it — refuting the claim that the directory is
removed on every exit path. -/
theorem c7_counterexample :
    (build envX cfgNone none ["cache/None-Regular.otf"]).2.2 = .error .allSubsetsEmpty
    ∧ .mkdtemp WORK_DIR ∈ (build envX cfgNone none ["cache/None-Regular.otf"]).2.1
    ∧ .rmtree WORK_DIR ∉ (build envX cfgNone none ["cache/None-Regular.otf"]).2.1 := by
  refine ⟨rfl, ?_, ?_⟩ <;> decide

/-- C7 (amended): the temporary working directory is removed when `build`
returns normally; when `build` terminates with an error, the directory is
never removed (in particular not when it had already been created). -/
theorem c7_workdir_cleanup (env : Env) (config0 : BuildConfig) (lj : Option String)
    (w0 : World) :
    (∀ p, (build env config0 lj w0).2.2 = .ok p →
        .rmtree WORK_DIR ∈ (build env config0 lj w0).2.1)
    ∧ (∀ er, (build env config0 lj w0).2.2 = .error er →
        ∀ d, .rmtree d ∉ (build env config0 lj w0).2.1) :=
  ⟨fun p he => build_ok_rmtree env config0 lj w0 p he,
   fun er he d => build_error_no_rmtree env config0 lj w0 er he d⟩

/-- C7 witness: a concrete successful build (both fonts cached, two scripts)
removes its working directory. -/
theorem c7_witness : .rmtree WORK_DIR ∈ (build envX cfgBase none wAB).2.1 :=
  (c7_workdir_cleanup envX cfgBase none wAB).1 "dist/OpFont-Regular.otf" rfl

/-! Claim C1: dry run against build.  The claim fails in two ways: with a
configured languages URL and no explicit manifest, `dry_run` auto-fetches
and applies the manifest (a network fetch and a cache write, and a
different resolved script list) while `build` applies nothing; and
`dry_run`'s reported merge order lists every enabled script while `build`
merges only the scripts not skipped by the dedup filter. -/

/-- C1 counterexample: on a configuration with a languages URL (latin
disabled, thai enabled) and an empty cache, `dry_run` issues an HTTP GET and
a cache write and resolves the enabled list to ["latin"], while `build` on
identical inputs applies nothing and keeps ["thai"]; and on a two-script
configuration in which the second script's request set is fully covered by
the first, `dry_run` plans a two-entry merge order while the real build
subsets and merges only the first script. -/
theorem c1_counterexample :
    (dry_run envX cfgLang none []).2.1
      = [.httpGet "https://x/languages.json" 1, .writeFile "cache/languages.json"]
    ∧ dryEnabledNames (dry_run envX cfgLang none []) = ["latin"]
    ∧ buildAppliedConfig envX cfgLang none = .ok cfgLang
    ∧ (cfgLang.scripts.filter (·.enabled)).map (·.name) = ["thai"]
    ∧ dryEnabledNames (dry_run envX cfgBase none wAB) = ["a", "b"]
    ∧ (build envX cfgBase none wAB).2.1.filterMap subsettedName = ["a"]
    ∧ .mergeRun ["/tmp/op_fonts_work/subset_a.otf"] "dist/OpFont-Regular.otf"
        ∈ (build envX cfgBase none wAB).2.1 := by
  refine ⟨by decide, by decide, rfl, by decide, by decide, by decide, by decide⟩

/-- C1 (amended): when the languages manifest is passed explicitly, or no
languages URL is configured, `dry_run` and `build` resolve the same applied
configuration — so the same enabled-script list and the same per-script
code-point counts — and `dry_run` performs no effects at all (no fetching,
no subsetting, no merging); on a successful build, the per-script decisions
cover exactly the planned (enabled) scripts in order, the actually merged
scripts are a subsequence of that plan (equal when nothing is skipped), and
the single merge's inputs are the subset files of those scripts in plan
order. -/
theorem c1_dry_run_matches_build (env : Env) (config : BuildConfig)
    (languages_json : Option String) (w : World)
    (h : languages_json ≠ none ∨ config.languages_url = "") :
    (dryRunApplied env config languages_json w
      = (w, [], buildAppliedConfig env config languages_json))
    ∧ ((dry_run env config languages_json w).1 = w
        ∧ (dry_run env config languages_json w).2.1 = [])
    ∧ (∀ cfg, buildAppliedConfig env config languages_json = .ok cfg →
        (dry_run env config languages_json w).2.2 = .ok
          { enabledNames := (cfg.scripts.filter (·.enabled)).map (·.name)
            counts := (cfg.scripts.filter (·.enabled)).map
              (fun s => (s.name, (_resolve_codepoints env s cfg).length))
            plan := (get_download_plan cfg).map
              (fun e => (e.1, e.2.1, e.2.2, w.contains e.2.2))
            mergeOrder := (cfg.scripts.filter (·.enabled)).map (fun s => (s.noto_font, s.name))
              ++ (if cfg.symbols.enabled then
                    cfg.symbols.fonts.map (fun sf => (sf.name, "symbols"))
                  else [])
            finalName := (cfg.name, cfg.style) })
    ∧ (∀ p, (build env config languages_json w).2.2 = .ok p →
        ∃ cfg, buildAppliedConfig env config languages_json = .ok cfg
          ∧ (((build env config languages_json w).2.1.filterMap decisionOfEff).map
                decisionName
              = (cfg.scripts.filter (·.enabled)).map (·.name))
          ∧ List.Sublist ((build env config languages_json w).2.1.filterMap subsettedName)
              ((cfg.scripts.filter (·.enabled)).map (·.name))
          ∧ (∀ ins o, .mergeRun ins o ∈ (build env config languages_json w).2.1 →
              ins = ((build env config languages_json w).2.1.filterMap subsettedName).map
                (fun n => WORK_DIR ++ "/subset_" ++ n ++ ".otf"))) := by
  have hA : dryRunApplied env config languages_json w
      = (w, [], buildAppliedConfig env config languages_json) := by
    rcases languages_json with _ | pth
    · rcases h with hno | hurl
      · exact absurd rfl hno
      · simp [dryRunApplied, _resolve_languages_json, buildAppliedConfig, hurl]
    · simp [dryRunApplied, _resolve_languages_json, buildAppliedConfig]
  refine ⟨hA, ?_, ?_, ?_⟩
  · rcases hb : buildAppliedConfig env config languages_json with e | cfg <;>
      simp [dry_run, hA, hb]
  · intro cfg hcfg
    simp [dry_run, hA, hcfg]
  · intro p hp
    obtain ⟨cfg, hac, font_paths, sc, hf, hs, hpv, htr⟩ :=
      build_ok_shape env config languages_json w p hp
    have hnil := netTrace_no_decisions
      (fetchScripts env cfg (cfg.scripts.filter (·.enabled)) w).2.1
      (fetchScripts_eff env cfg (cfg.scripts.filter (·.enabled)) w)
    have hdec : (build env config languages_json w).2.1.filterMap decisionOfEff
        = (subsetScripts env cfg font_paths WORK_DIR (cfg.scripts.filter (·.enabled)) ∅ []
            (fetchScripts env cfg (cfg.scripts.filter (·.enabled)) w).1).2.1.filterMap
            decisionOfEff := by
      rw [htr]
      by_cases hkf : cfg.merge.keep_features ≠ [] <;>
        simp [hkf, List.filterMap_append, List.filterMap_cons, decisionOfEff, hnil.1]
    have hsub : (build env config languages_json w).2.1.filterMap subsettedName
        = (subsetScripts env cfg font_paths WORK_DIR (cfg.scripts.filter (·.enabled)) ∅ []
            (fetchScripts env cfg (cfg.scripts.filter (·.enabled)) w).1).2.1.filterMap
            subsettedName := by
      rw [htr]
      by_cases hkf : cfg.merge.keep_features ≠ [] <;>
        simp [hkf, List.filterMap_append, List.filterMap_cons, subsettedName, hnil.2]
    refine ⟨cfg, hac, ?_, ?_, ?_⟩
    · rw [hdec]
      exact subsetScripts_ok_names env cfg font_paths WORK_DIR _ _ _ _ _ hs
    · rw [hsub]
      exact subsetScripts_subsetted_sublist env cfg font_paths WORK_DIR _ _ _ _
    · intro ins o hmem
      rw [htr] at hmem
      rw [hsub]
      have hpaths := subsetScripts_ok_paths env cfg font_paths WORK_DIR _ _ _ _ _ hs
      simp only [List.nil_append] at hpaths
      by_cases hkf : cfg.merge.keep_features ≠ [] <;>
        simp only [hkf, if_true, if_false, ite_true, ite_false, if_pos, if_neg,
          ne_eq, not_true, not_false_iff, List.mem_append, List.mem_cons,
          List.mem_singleton, List.not_mem_nil, or_false, false_or,
          reduceCtorEq, Eff.mergeRun.injEq] at hmem <;>
      · rcases hmem with hm | hmerge
        · rcases hm with hm | hm
          · exact absurd (fetchScripts_eff env cfg (cfg.scripts.filter (·.enabled)) w _ hm)
              (by simp [isNetEff])
          · exact absurd (subsetScripts_eff env cfg font_paths WORK_DIR _ _ _ _ _ hm)
              (by simp [isScriptSubsetEff])
        · exact hmerge.1.trans hpaths

/-- C10: in the subsetting loop, a ValueError from subsetting an individual
script is converted to a skip (the script contributes nothing, processing
continues, no error); any other exception aborts the loop immediately with
the external failure propagated; the loop's only error is that external
failure, and a build that ends in it performed no merge. -/
theorem c10_subset_error_policy (env : Env) (config : BuildConfig)
    (fonts : List (String × String)) (work_dir : String) (script : ScriptEntry)
    (rest : List ScriptEntry) (covered : Finset Nat) (acc : List String) (w : World) :
    ((_resolve_codepoints env script config).filter (fun cp => cp ∉ covered) ≠ [] →
      subset_call env (dictGet fonts script.name)
          ((_resolve_codepoints env script config).filter (fun cp => cp ∉ covered))
        = .valueErr →
      subsetScripts env config fonts work_dir (script :: rest) covered acc w
        = ((subsetScripts env config fonts work_dir rest covered acc w).1,
           .skipValueError script.name
             :: (subsetScripts env config fonts work_dir rest covered acc w).2.1,
           (subsetScripts env config fonts work_dir rest covered acc w).2.2))
    ∧ ((_resolve_codepoints env script config).filter (fun cp => cp ∉ covered) ≠ [] →
      subset_call env (dictGet fonts script.name)
          ((_resolve_codepoints env script config).filter (fun cp => cp ∉ covered))
        = .err →
      subsetScripts env config fonts work_dir (script :: rest) covered acc w
        = (w, [.subsetError script.name], .error .externalFailure))
    ∧ (∀ (scripts : List ScriptEntry) (covered2 : Finset Nat) (acc2 : List String)
        (w2 : World) (er : Err),
        (subsetScripts env config fonts work_dir scripts covered2 acc2 w2).2.2 = .error er →
        er = .externalFailure)
    ∧ (∀ (env2 : Env) (config2 : BuildConfig) (lj : Option String) (w0 : World),
        (build env2 config2 lj w0).2.2 = .error .externalFailure →
        ∀ ins o, Eff.mergeRun ins o ∉ (build env2 config2 lj w0).2.1) := by
  refine ⟨?_, ?_, ?_, ?_⟩
  · intro hne hsc
    rw [subsetScripts_cons]
    simp only [if_neg hne, hsc]
  · intro hne hsc
    rw [subsetScripts_cons]
    simp only [if_neg hne, hsc]
  · intro scripts
    induction scripts with
    | nil => intro covered2 acc2 w2 er he; simp [subsetScripts] at he
    | cons s2 r2 ih =>
      intro covered2 acc2 w2 er he
      rw [subsetScripts_cons] at he
      simp only [] at he
      by_cases hemp :
          (_resolve_codepoints env s2 config).filter (fun cp => cp ∉ covered2) = []
      · simp only [if_pos hemp] at he
        exact ih _ _ _ er he
      · simp only [if_neg hemp] at he
        cases hsc : subset_call env (dictGet fonts s2.name)
            ((_resolve_codepoints env s2 config).filter (fun cp => cp ∉ covered2)) with
        | ok cmap =>
          simp only [hsc] at he
          exact ih _ _ _ er he
        | valueErr =>
          simp only [hsc] at he
          exact ih _ _ _ er he
        | err =>
          simp only [hsc] at he
          simpa using he.symm
  · intro env2 config2 lj w0 he ins o
    exact build_error_no_merge env2 config2 lj w0 _ he ins o

/-- C10 witness: on a font with an empty character map the subset call is a
ValueError and the script is skipped with processing continuing normally,
while a crashing external engine aborts the loop with the external failure. -/
theorem c10_witness :
    subsetScripts envFail cfgBase [("a", "cache/A-Regular.otf")] WORK_DIR [scA] ∅ [] wAB
      = (wAB, [.skipValueError "a"], .ok ([], ∅))
    ∧ subsetScripts envCrash cfgBase [("a", "cache/A-Regular.otf")] WORK_DIR [scA] ∅ [] wAB
      = (wAB, [.subsetError "a"], .error .externalFailure) := by
  constructor
  · have h := (c10_subset_error_policy envFail cfgBase [("a", "cache/A-Regular.otf")]
      WORK_DIR scA [] ∅ [] wAB).1 (by decide) (by decide)
    rw [h]
    rfl
  · have h := (c10_subset_error_policy envCrash cfgBase [("a", "cache/A-Regular.otf")]
      WORK_DIR scA [] ∅ [] wAB).2.1 (by decide) (by decide)
    rw [h]
    rfl

/-- C1 witness: with no languages URL configured and no explicit manifest,
the dry run resolves exactly the configuration the build uses and has an
empty effect trace. -/
theorem c1_witness :
    dryRunApplied envX cfgBase none wAB = (wAB, [], .ok cfgBase)
    ∧ (dry_run envX cfgBase none wAB).2.1 = [] := by
  have h := c1_dry_run_matches_build envX cfgBase none wAB (Or.inr rfl)
  constructor
  · rw [h.1]
    rfl
  · exact h.2.1.2

/-! Claim C6: the fetch stage of `build`.  The code contradicts the claim:
pipeline.py line 145 calls `ensure_symbol_font(config, sf.name, sf.path,
sf.url)` with four arguments while download.py defines it with three, so a
build with symbols enabled and a non-empty symbol font list raises
TypeError instead of resolving the symbol fonts; and `build` contains no
emoji fetch at all, so a declared and enabled emoji font is never
resolved. -/

/-- C6: at a configuration with symbols enabled and one declared symbol
font, `build` aborts with the TypeError raised by the four-argument call of
three-parameter `ensure_symbol_font`; and at a configuration with emoji
declared and enabled, a successful build issues no HTTP request and leaves
no emoji font in the cache — the emoji font is never resolved. -/
theorem c6_fetch_stage_bug :
    (build envX cfgSym none ["cache/A-Regular.otf"]).2.2 = .error .typeError
    ∧ cfgSym.symbols.enabled = true
    ∧ cfgSym.symbols.fonts.length = 1
    ∧ (build envX cfgEmoji none ["cache/A-Regular.otf"]).2.2
        = .ok "dist/OpFont-Regular.otf"
    ∧ cfgEmoji.emoji.enabled = true
    ∧ cfgEmoji.emoji.font = "Emoji.otf"
    ∧ (build envX cfgEmoji none ["cache/A-Regular.otf"]).2.1.filterMap effAttempt = []
    ∧ ((build envX cfgEmoji none ["cache/A-Regular.otf"]).1.contains "cache/Emoji.otf")
        = false := by
  refine ⟨rfl, rfl, rfl, rfl, rfl, rfl, by decide, by decide⟩

/-! Claim C9: per-weight isolation in `build_all`. -/

/-- C9: with a non-empty weight list (and no languages URL, so the language
step is a no-op), the per-weight loop of `build_all` is exactly a sequence
of independent builds over configurations each derived from the base alone:
the loop equals `buildSeq` over `weights.map (perWeightConfig base)`, each
derived configuration changes only the style, the output name and the
per-script "Regular" substitution of the base — never the base itself (the
deep copy is the identity on values) — and `build_all` runs that loop on
the unchanged base configuration. -/
theorem c9_weight_isolation (env : Env) (config : BuildConfig) (w : World)
    (hw : config.weights ≠ []) (hurl : config.languages_url = "") :
    (∀ (ws : List String) (w2 : World),
        buildWeights env config ws w2 = buildSeq env (ws.map (perWeightConfig config)) w2)
    ∧ (∀ weight, perWeightConfig config weight
        = { config with
            style := weight
            output := config.name ++ "-" ++ weight ++ ".otf"
            scripts := config.scripts.map fun script =>
              { script with noto_font := strReplace script.noto_font "Regular" weight } })
    ∧ deepcopy config = config
    ∧ build_all env config none w
        = ((buildWeights env config config.weights w).1,
           (buildWeights env config config.weights w).2.1,
           (buildWeights env config config.weights w).2.2) := by
  refine ⟨?_, fun weight => rfl, rfl, ?_⟩
  · intro ws
    induction ws with
    | nil => intro w2; rfl
    | cons wt rest ih =>
      intro w2
      simp only [buildWeights, buildSeq, List.map_cons, ih]
  · simp [build_all, _resolve_languages_json, hurl, hw]

/-- C9 witness: on the two-weight configuration, the weight loop equals the
independent build sequence; the "Bold" configuration carries the Bold style,
output name and substituted source font names while the base configuration
keeps its "Regular" source font names. -/
theorem c9_witness :
    buildWeights envX cfgWeights cfgWeights.weights wAB
      = buildSeq envX (cfgWeights.weights.map (perWeightConfig cfgWeights)) wAB
    ∧ (perWeightConfig cfgWeights "Bold").style = "Bold"
    ∧ (perWeightConfig cfgWeights "Bold").output = "OpFont-Bold.otf"
    ∧ (perWeightConfig cfgWeights "Bold").scripts.map (·.noto_font)
        = ["A-Bold.otf", "B-Bold.otf"]
    ∧ cfgWeights.scripts.map (·.noto_font) = ["A-Regular.otf", "B-Regular.otf"] := by
  have h := c9_weight_isolation envX cfgWeights wAB (by decide) rfl
  refine ⟨h.1 cfgWeights.weights wAB, ?_, ?_, ?_, by decide⟩
  · rw [h.2.1 "Bold"]
  · rw [h.2.1 "Bold"]
    rfl
  · rw [h.2.1 "Bold"]
    decide

end OpFonts
